import Mathlib

/-!
Verification of the string sanitization and security-gate layer of an
Apple Mail automation bridge.

The Python sources (`utils.py`, `security.py`) are shallowly embedded here:
Python `str` values become `List Char`, `datetime` timestamps become `Int`
points on the time axis, `str.replace` of a single character becomes
`pyReplaceChar`, and the concrete regular expressions used by the code are
embedded as executable character scanners that follow the backtracking
behaviour of Python's `re` module on the character classes involved (the
embedding covers the ASCII fragment of `\w`, which is the fragment the
properties below exercise).  Python's `$` anchor, which also matches just
before a single trailing newline, is modelled by `pyMatchDollar`.
-/

/-! ## Embedding of `utils.escape_applescript_string` -/

/-- Keep-predicate of the control-character filter: code points `≥ 0x20`
plus tab, line feed and carriage return survive. -/
def ctrlKeep (c : Char) : Bool :=
  decide (0x20 ≤ c.toNat) || c == '\t' || c == '\n' || c == '\r'

/-- Python `s.replace(a, r)` for a single-character needle `a`:
every occurrence of `a` is replaced by the block `r`. -/
def pyReplaceChar (a : Char) (r : List Char) : List Char → List Char
  | [] => []
  | c :: t => (if c = a then r else [c]) ++ pyReplaceChar a r t

/-- `utils.escape_applescript_string`: delete NUL bytes, delete the other
control characters below `0x20` except tab/LF/CR, then escape backslash,
double quote, CR, LF and tab, in this exact order. -/
def escape_applescript_string (s : List Char) : List Char :=
  let s1 := pyReplaceChar '\x00' [] s
  let s2 := s1.filter ctrlKeep
  let s3 := pyReplaceChar '\\' ['\\', '\\'] s2
  let s4 := pyReplaceChar '"' ['\\', '"'] s3
  let s5 := pyReplaceChar '\r' ['\\', 'r'] s4
  let s6 := pyReplaceChar '\n' ['\\', 'n'] s5
  pyReplaceChar '\t' ['\\', 't'] s6

/-- Per-character encoding performed by the five escape steps on a
character that survived the control filter. -/
def encodeChar (c : Char) : List Char :=
  if c = '\\' then ['\\', '\\']
  else if c = '"' then ['\\', '"']
  else if c = '\r' then ['\\', 'r']
  else if c = '\n' then ['\\', 'n']
  else if c = '\t' then ['\\', 't']
  else [c]

/-- Well-escaped output grammar: a sequence of printable plain characters
(neither backslash nor quote) and two-character escape sequences.
`EscChain l` expresses that every backslash in `l` occurs as the head of an
escape sequence. -/
inductive EscChain : List Char → Prop
  | nil : EscChain []
  | plain (c : Char) (l : List Char) :
      0x20 ≤ c.toNat → c ≠ '\\' → c ≠ '"' → EscChain l → EscChain (c :: l)
  | esc (c : Char) (l : List Char) :
      c ∈ (['\\', '"', 'r', 'n', 't'] : List Char) → EscChain l → EscChain ('\\' :: c :: l)

/-- Number of consecutive backslashes at the end of `l`. -/
def trailBS (l : List Char) : Nat :=
  (l.reverse.takeWhile (fun c => c == '\\')).length

/-! ## Embedding of `security.RateLimiter` -/

/-- `security.RateLimiter`: per-operation recorded timestamps.  The Python
`defaultdict(list)` is embedded as a total function that returns `[]` for
unknown operation names; timestamps live on an `Int` time axis. -/
structure RateLimiter where
  operation_times : String → List Int

/-- A freshly constructed rate limiter: no timestamps recorded. -/
def RateLimiter.empty : RateLimiter := ⟨fun _ => []⟩

/-- `RateLimiter.check`: prune the operation's timestamps to those strictly
newer than `now - window_seconds`, deny if at least `max_operations`
remain, otherwise record `now` and admit. -/
def RateLimiter.check (rl : RateLimiter) (operation : String)
    (now window_seconds max_operations : Int) : Bool × RateLimiter :=
  let cutoff := now - window_seconds
  let pruned := (rl.operation_times operation).filter (fun t => decide (cutoff < t))
  if max_operations ≤ (pruned.length : Int) then
    (false, ⟨fun op => if op = operation then pruned else rl.operation_times op⟩)
  else
    (true, ⟨fun op => if op = operation then pruned ++ [now] else rl.operation_times op⟩)

/-- `RateLimiter.reset`: clear one operation's history, or all of them.
Python's truthiness test `if operation:` treats the empty string like
`None`, so `reset("")` clears everything. -/
def RateLimiter.reset (rl : RateLimiter) (operation : Option String) : RateLimiter :=
  match operation with
  | some op =>
    if op = "" then ⟨fun _ => []⟩
    else ⟨fun o => if o = op then [] else rl.operation_times o⟩
  | none => ⟨fun _ => []⟩

/-- Repeat `check` for the same operation at the same timestamp `k` times,
keeping the resulting state. -/
def RateLimiter.checkRepeat (rl : RateLimiter) (operation : String)
    (now window_seconds max_operations : Int) : Nat → RateLimiter
  | 0 => rl
  | k + 1 =>
    ((rl.checkRepeat operation now window_seconds max_operations k).check
      operation now window_seconds max_operations).2

/-- One interaction with the rate limiter: a `check` (carrying the wall
clock reading `now`) or a `reset`. -/
inductive RLEvent
  | check (operation : String) (now window_seconds max_operations : Int)
  | reset (operation : Option String)

/-- Run a sequence of interactions against a rate limiter state. -/
def runRLEvents (rl : RateLimiter) : List RLEvent → RateLimiter
  | [] => rl
  | RLEvent.check op now w m :: rest => runRLEvents ((rl.check op now w m).2) rest
  | RLEvent.reset op :: rest => runRLEvents (rl.reset op) rest

/-- The wall clock never goes backwards along the event list, starting
from a reading `t0`. -/
def rlEventsMono : Int → List RLEvent → Prop
  | _, [] => True
  | t0, RLEvent.check _ now _ _ :: rest => t0 ≤ now ∧ rlEventsMono now rest
  | t0, RLEvent.reset _ :: rest => rlEventsMono t0 rest

/-- The last wall clock reading of an event list (or the starting one). -/
def rlEventsEnd : Int → List RLEvent → Int
  | t0, [] => t0
  | _, RLEvent.check _ now _ _ :: rest => rlEventsEnd now rest
  | t0, RLEvent.reset _ :: rest => rlEventsEnd t0 rest

/-- Every stored timestamp sequence is monotonically non-decreasing. -/
def timesSorted (rl : RateLimiter) : Prop :=
  ∀ op, List.Sorted (· ≤ ·) (rl.operation_times op)

/-- Every stored timestamp is at most the wall clock reading `now`. -/
def timesLE (rl : RateLimiter) (now : Int) : Prop :=
  ∀ op, ∀ t ∈ rl.operation_times op, t ≤ now

/-! ## Embedding of `security.require_confirmation` -/

/-- Outcome of the `osascript` confirmation dialog subprocess, the
environment input of `require_confirmation`: it completed with an exit
code and captured stdout, it hit the five-minute timeout, or raising the
dialog failed with some other exception. -/
inductive DialogOutcome
  | completed (returncode : Int) (stdout : List Char)
  | timedOut
  | failed

/-- `security.require_confirmation`: a non-`None` `auto_confirm` override
is returned directly; otherwise the call is confirmed exactly when the
dialog subprocess exits with code 0 and its stdout contains the literal
token `Confirm`; a timeout or any dialog error denies. -/
def require_confirmation (auto_confirm : Option Bool) (dialog : DialogOutcome) : Bool :=
  match auto_confirm with
  | some b => b
  | none =>
    match dialog with
    | DialogOutcome.completed rc out =>
      rc == 0 && decide ("Confirm".toList <:+: out)
    | DialogOutcome.timedOut => false
    | DialogOutcome.failed => false

/-! ## Embedding of `security.OperationLogger` -/

/-- One audit-trail record: timestamp, operation name, parameters and
result status. -/
structure OperationRecord where
  timestamp : String
  operation : String
  parameters : List (String × String)
  result : String
deriving DecidableEq

/-- `security.OperationLogger`: the list of records logged so far. -/
structure OperationLogger where
  operations : List OperationRecord
deriving DecidableEq

/-- Python `l[s:]` on lists: a negative start counts from the end and is
clamped at 0, a non-negative start is clamped at the length. -/
def pySliceFrom (s : Int) (l : List OperationRecord) : List OperationRecord :=
  if 0 ≤ s then l.drop s.toNat
  else l.drop (l.length - min l.length s.natAbs)

/-- `OperationLogger.log_operation`: append one record (the timestamp,
produced by `datetime.now().isoformat()`, is an environment input). -/
def OperationLogger.log_operation (lg : OperationLogger) (timestamp operation : String)
    (parameters : List (String × String)) (result : String) : OperationLogger :=
  ⟨lg.operations ++ [⟨timestamp, operation, parameters, result⟩]⟩

/-- `OperationLogger.get_recent_operations`: Python `self.operations[-limit:]`. -/
def OperationLogger.get_recent_operations (lg : OperationLogger) (limit : Int) :
    List OperationRecord :=
  pySliceFrom (-limit) lg.operations

/-- A two-record logger used to exhibit the behaviour of
`get_recent_operations` at limit 0. -/
def twoRecordLogger : OperationLogger :=
  ⟨[⟨"t1", "send_email", [], "success"⟩, ⟨"t2", "delete_messages", [], "cancelled"⟩]⟩

/-! ## Embedding of `security.validate_bulk_operation` -/

/-- `security.validate_bulk_operation`: reject empty batches and batches
larger than `max_items`, otherwise valid with an empty error message. -/
def validate_bulk_operation (item_count : Int) (max_items : Int) : Bool × String :=
  if item_count = 0 then (false, "No items specified for operation")
  else if max_items < item_count then
    (false, "Too many items (" ++ toString item_count ++ "), maximum is " ++ toString max_items)
  else (true, "")

/-! ## Embedding of `utils.validate_email` -/

/-- ASCII letter or digit. -/
def isAlnumChar (c : Char) : Bool := c.isAlpha || c.isDigit

/-- Character class `[a-zA-Z0-9._%+-]` of the local-part pattern. -/
def isLocalChar (c : Char) : Bool :=
  isAlnumChar c || c == '.' || c == '_' || c == '%' || c == '+' || c == '-'

/-- Character class `[a-zA-Z0-9-]` of the interior of a domain label. -/
def isLabelChar (c : Char) : Bool := isAlnumChar c || c == '-'

/-- Language of `[a-zA-Z0-9]([a-zA-Z0-9-]{0,61}[a-zA-Z0-9])?`: one to 63
characters over letters, digits and hyphens, with an alphanumeric
character at both ends. -/
def labelOK (l : List Char) : Bool :=
  decide (l ≠ []) && decide (l.length ≤ 63) && l.all isLabelChar &&
    (match l.head? with | some c => isAlnumChar c | none => false) &&
    (match l.getLast? with | some c => isAlnumChar c | none => false)

/-- Language of the trailing `[a-zA-Z]{2,}` of the domain pattern. -/
def tldOK (l : List Char) : Bool := decide (2 ≤ l.length) && l.all Char.isAlpha

/-- `str`/regex decomposition at a separator character: `splitOnChar sep l`
is the list of maximal separator-free segments, with one empty segment per
leading, trailing or doubled separator. -/
def splitOnChar (sep : Char) : List Char → List (List Char)
  | [] => [[]]
  | c :: t =>
    if c = sep then [] :: splitOnChar sep t
    else
      match splitOnChar sep t with
      | h :: r => (c :: h) :: r
      | [] => [[c]]

/-- Core language of the anchored domain regex
`[a-zA-Z0-9]([a-zA-Z0-9-]{0,61}[a-zA-Z0-9])?(\.[a-zA-Z0-9]([a-zA-Z0-9-]{0,61}[a-zA-Z0-9])?)*\.[a-zA-Z]{2,}`:
since no label may contain a dot, a string is in the language exactly when
its dot-separated decomposition consists of at least two segments, all
segments before the last are labels, and the last is a 2+-letter TLD. -/
def domainCore (d : List Char) : Bool :=
  let parts := splitOnChar '.' d
  decide (2 ≤ parts.length) && parts.dropLast.all labelOK && tldOK (parts.getLastD [])

/-- Core language of the anchored local-part regex `[a-zA-Z0-9._%+-]+`. -/
def localCore (l : List Char) : Bool := !l.isEmpty && l.all isLocalChar

/-- Python `re.match(core + '$', s)` truthiness: `$` matches at the end of
the string or just before one trailing newline. -/
def pyMatchDollar (core : List Char → Bool) (s : List Char) : Bool :=
  core s || ((s.getLast? == some '\n') && core s.dropLast)

/-- Substring test for `".." in s`. -/
def hasDoubleDot : List Char → Bool
  | '.' :: '.' :: _ => true
  | _ :: t => hasDoubleDot t
  | [] => false

/-- `utils.validate_email`, in the source's check order: length bound,
exactly one `@`, non-empty bounded local and domain parts (`rsplit('@', 1)`
splits at the unique `@`), no `..` anywhere, no leading or trailing dot in
the local part, then the two anchored regexes. -/
def validate_email (email : List Char) : Bool :=
  if email.isEmpty || 254 < email.length then false
  else if email.count '@' ≠ 1 then false
  else
    let lpart := email.takeWhile (fun c => c ≠ '@')
    let domain := (email.dropWhile (fun c => c ≠ '@')).tail
    if lpart.isEmpty || 64 < lpart.length then false
    else if domain.isEmpty || 253 < domain.length then false
    else if hasDoubleDot email then false
    else if lpart.head? == some '.' || lpart.getLast? == some '.' then false
    else if !(pyMatchDollar localCore lpart) then false
    else if !(pyMatchDollar domainCore domain) then false
    else true

/-- Claim C4's characterization of `validate_email`, taken at its word:
total length at most 254, exactly one `@`, a local part of 1 to 64
characters over `[A-Za-z0-9._%+-]` with no leading or trailing dot and no
`..`, and a domain of at most 253 characters whose labels neither start
nor end with a hyphen and whose final label is at least 2 alphabetic
characters. -/
def email_claim_literal (email : List Char) : Bool :=
  decide (email.length ≤ 254) && (email.count '@' == 1) &&
    (let lpart := email.takeWhile (fun c => c ≠ '@')
     let domain := (email.dropWhile (fun c => c ≠ '@')).tail
     decide (1 ≤ lpart.length) && decide (lpart.length ≤ 64) &&
       lpart.all isLocalChar &&
       !(lpart.head? == some '.') && !(lpart.getLast? == some '.') &&
       !(hasDoubleDot lpart) &&
       decide (domain.length ≤ 253) &&
       (let parts := splitOnChar '.' domain
        parts.all (fun p => !(p.head? == some '-') && !(p.getLast? == some '-')) &&
          tldOK (parts.getLastD [])))

/-- Claim C4 amended to match the code: additionally, domain labels are
non-empty, at most 63 characters over letters/digits/hyphens with
alphanumeric end characters; the `..` exclusion covers the whole address;
and, because Python's `$` also matches before one trailing newline, a
single trailing newline is tolerated at the end of the local part and at
the end of the domain. -/
def email_claim_amended (email : List Char) : Bool :=
  decide (1 ≤ email.length) && decide (email.length ≤ 254) &&
    (email.count '@' == 1) && !(hasDoubleDot email) &&
    (let lpart := email.takeWhile (fun c => c ≠ '@')
     let domain := (email.dropWhile (fun c => c ≠ '@')).tail
     decide (1 ≤ lpart.length) && decide (lpart.length ≤ 64) &&
       !(lpart.head? == some '.') && !(lpart.getLast? == some '.') &&
       (lpart.all isLocalChar ||
         ((lpart.getLast? == some '\n') && !lpart.dropLast.isEmpty &&
           lpart.dropLast.all isLocalChar)) &&
       decide (1 ≤ domain.length) && decide (domain.length ≤ 253) &&
       (domainCore domain ||
         ((domain.getLast? == some '\n') && domainCore domain.dropLast)))

/-! ## Embedding of `utils.sanitize_mailbox_name` -/

/-- Python `s.replace("..", "")`: remove non-overlapping occurrences of
`..`, scanning left to right. -/
def replaceDotDot : List Char → List Char
  | '.' :: '.' :: t => replaceDotDot t
  | c :: t => c :: replaceDotDot t
  | [] => []

/-- The character class `[<>:"|?*]` removed from mailbox names. -/
def dangerousMailboxChar (c : Char) : Bool :=
  c == '<' || c == '>' || c == ':' || c == '"' || c == '|' || c == '?' || c == '*'

/-- ASCII whitespace stripped by Python `str.strip()`. -/
def pyIsSpace (c : Char) : Bool :=
  c == ' ' || c == '\t' || c == '\n' || c == '\r' || c == '\x0b' || c == '\x0c'

/-- Python `str.strip()`: drop whitespace from both ends. -/
def pyStrip (l : List Char) : List Char :=
  ((l.dropWhile pyIsSpace).reverse.dropWhile pyIsSpace).reverse

/-- `utils.sanitize_mailbox_name`: strip NUL bytes, remove `..`, `/` and
`\` , remove `<>:"|?*`, then trim surrounding whitespace — in this exact
order. -/
def sanitize_mailbox_name (name : List Char) : List Char :=
  let n1 := pyReplaceChar '\x00' [] name
  let n2 := replaceDotDot n1
  let n3 := pyReplaceChar '/' [] n2
  let n4 := pyReplaceChar '\\' [] n3
  let n5 := n4.filter (fun c => !dangerousMailboxChar c)
  pyStrip n5

/-! ## Embedding of `utils.sanitize_filename` -/

/-- Characters kept verbatim by the filename sanitizer: `[a-zA-Z0-9._-]`. -/
def isFnChar (c : Char) : Bool :=
  isAlnumChar c || c == '.' || c == '_' || c == '-'

/-- `pathlib.Path(f).name` on POSIX: the final path component after
dropping empty components (doubled or trailing slashes) and single-dot
components; the empty string when no component remains. -/
def pyPathName (l : List Char) : List Char :=
  (((splitOnChar '/' l).filter
    (fun comp => decide (comp ≠ [] ∧ comp ≠ ['.']))).getLastD [])

/-- Python `l[:n]`: a negative `n` drops `|n|` characters from the end
(clamped at the empty list), a non-negative `n` keeps the first `n`. -/
def pySliceTake (n : Int) (l : List Char) : List Char :=
  if 0 ≤ n then l.take n.toNat
  else l.take (l.length - min l.length n.natAbs)

/-- Python `f.rsplit('.', 1)` under the guard `'.' in f`: the part before
the last dot, and the extension after it. -/
def rsplitDot (l : List Char) : List Char × List Char :=
  let ext := (l.reverse.takeWhile (fun c => c ≠ '.')).reverse
  (l.take (l.length - ext.length - 1), ext)

/-- The filename pipeline before the length cap: strip NUL bytes, keep the
final path component, replace characters outside `[a-zA-Z0-9._-]` by `_`,
strip leading dots. -/
def sanitize_filename_precap (filename : List Char) : List Char :=
  let f1 := pyReplaceChar '\x00' [] filename
  let f2 := pyPathName f1
  let f3 := f2.map (fun c => if isFnChar c then c else '_')
  f3.dropWhile (fun c => c == '.')

/-- `utils.sanitize_filename`: the pre-cap pipeline, then a 255-character
cap that preserves the extension when one is present (Python slices the
stem by `255 - len(ext) - 1`, which is negative for a long extension), and
the fixed placeholder for an empty result. -/
def sanitize_filename (filename : List Char) : List Char :=
  let f4 := sanitize_filename_precap filename
  let f5 :=
    if 255 < f4.length then
      if '.' ∈ f4 then
        let p := rsplitDot f4
        if !p.2.isEmpty then
          pySliceTake (255 - (p.2.length : Int) - 1) p.1 ++ '.' :: p.2
        else f4.take 255
      else f4.take 255
    else f4
  if f5.isEmpty then "unnamed_file".toList else f5

/-! ## Embedding of `utils.sanitize_error_message`

The four `re.sub` calls are embedded as executable scanners.  Each scanner
walks the text left to right; at each position it tries the pattern
(following the greedy/backtracking order of Python `re`), emits the
replacement and resumes after the match on success, and moves one
character on failure — exactly the scan performed by `re.sub`.  `\w` is
modelled by its ASCII fragment. -/

/-- ASCII fragment of `\w`. -/
def isWordChar (c : Char) : Bool := isAlnumChar c || c == '_'

/-- Character class `[\w / -]` of the path pattern. -/
def isPathA (c : Char) : Bool := isWordChar c || c == '/' || c == '-'

/-- Character class `[\w/.-]` of the path pattern. -/
def isPathB (c : Char) : Bool := isPathA c || c == '.'

/-- Backtracking tail of `[\w / -]+/[\w/.-]+` after `n ≥ 1` characters of
the first class have been consumed: consuming a further first-class
character is tried first (greedy `+`), and only on failure is the literal
`/` matched here, followed by at least one second-class character.
Returns the total match length. -/
def pathSplit : List Char → Nat → Option Nat
  | [], _ => none
  | c :: rest, n =>
    match (if isPathA c then pathSplit rest (n + 1) else none) with
    | some L => some L
    | none =>
      if c = '/' ∧ 1 ≤ (rest.takeWhile isPathB).length then
        some (n + 1 + (rest.takeWhile isPathB).length)
      else none

/-- Match `[\w / -]+/[\w/.-]+` at the head of `l`. -/
def matchPathTail : List Char → Option Nat
  | c :: rest => if isPathA c then pathSplit rest 1 else none
  | [] => none

/-- Match `[~ /]?[\w / -]+/[\w/.-]+` at the head of `l`: the optional prefix
character is consumed greedily, with fallback to the empty alternative. -/
def matchPath (l : List Char) : Option Nat :=
  match l with
  | c :: rest =>
    if c = '~' ∨ c = '/' then
      match matchPathTail rest with
      | some L => some (L + 1)
      | none => matchPathTail l
    else matchPathTail l
  | [] => none

/-- `re.sub(r'[~ /]?[\w / -]+/[\w/.-]+', '[PATH]', text)`.  The fuel
argument bounds the recursion; every step consumes at least one character,
so `sub_path` passes the text's length as fuel. -/
def sub_path_fuel : Nat → List Char → List Char
  | 0, l => l
  | _, [] => []
  | fuel + 1, c :: rest =>
    match matchPath (c :: rest) with
    | some L => "[PATH]".toList ++ sub_path_fuel fuel ((c :: rest).drop L)
    | none => c :: sub_path_fuel fuel rest

/-- First substitution of `sanitize_error_message`. -/
def sub_path (l : List Char) : List Char := sub_path_fuel l.length l

/-- Character class `[\w\\.-]` of the Windows path pattern. -/
def isWinChar (c : Char) : Bool := isWordChar c || c == '\\' || c == '.' || c == '-'

/-- Match `[A-Za-z]:\\[\w\\.-]+` at the head of `l`. -/
def matchWinPath : List Char → Option Nat
  | a :: ':' :: '\\' :: rest =>
    if a.isAlpha ∧ 1 ≤ (rest.takeWhile isWinChar).length then
      some (3 + (rest.takeWhile isWinChar).length)
    else none
  | _ => none

/-- `re.sub(r'[A-Za-z]:\\[\w\\.-]+', '[PATH]', text)`. -/
def sub_winpath_fuel : Nat → List Char → List Char
  | 0, l => l
  | _, [] => []
  | fuel + 1, c :: rest =>
    match matchWinPath (c :: rest) with
    | some L => "[PATH]".toList ++ sub_winpath_fuel fuel ((c :: rest).drop L)
    | none => c :: sub_winpath_fuel fuel rest

/-- Second substitution of `sanitize_error_message`. -/
def sub_winpath (l : List Char) : List Char := sub_winpath_fuel l.length l

/-- `re.sub(r'\b(?=\w*\d)[A-Za-z0-9]{10,}\b', '[ID]', text)`.  A match of
this pattern is exactly a maximal alphanumeric run of length at least 10
containing a digit whose neighbours are not word characters (the run being
maximal, only `_` can break the word boundaries; the lookahead cannot
reach a digit beyond the run without crossing the trailing `\b`).  The
Boolean argument records whether the previous character was a word
character. -/
def sub_id_aux : Nat → Bool → List Char → List Char
  | 0, _, l => l
  | _, _, [] => []
  | fuel + 1, prevWord, c :: rest =>
    if isAlnumChar c then
      let run := (c :: rest).takeWhile isAlnumChar
      let after := (c :: rest).dropWhile isAlnumChar
      if !prevWord && decide (10 ≤ run.length) && run.any Char.isDigit &&
          !(after.head? == some '_') then
        "[ID]".toList ++ sub_id_aux fuel true after
      else run ++ sub_id_aux fuel true after
    else c :: sub_id_aux fuel (isWordChar c) rest

/-- Third substitution of `sanitize_error_message`. -/
def sub_id (l : List Char) : List Char := sub_id_aux l.length false l

/-- Character class `[A-Za-z0-9.-]` of the email domain. -/
def isDomChar (c : Char) : Bool := isAlnumChar c || c == '.' || c == '-'

/-- Character class `[A-Z|a-z]` (the `|` is part of the class) of the
email pattern's final segment. -/
def isTldChar (c : Char) : Bool := c.isAlpha || c == '|'

/-- Word-character test on an optional character; string ends count as
non-word for `\b`. -/
def wordAt : Option Char → Bool
  | some c => isWordChar c
  | none => false

/-- Backtracking of the trailing `[A-Z|a-z]{2,}\b`: `tl` is the greedy run
of final-segment characters and `next` the character after it; the run is
shortened from the right until the trailing word boundary holds, failing
below two characters. -/
def tldTryFuel : Nat → List Char → Option Char → Option Nat
  | 0, _, _ => none
  | fuel + 1, tl, next =>
    if tl.length < 2 then none
    else if wordAt tl.getLast? != wordAt next then some tl.length
    else tldTryFuel fuel tl.dropLast tl.getLast?

/-- Entry point of the final-segment backtracking: the run length bounds
the number of shortening steps. -/
def tldTry (tl : List Char) (next : Option Char) : Option Nat :=
  tldTryFuel tl.length tl next

/-- Backtracking tail of `[A-Za-z0-9.-]+\.[A-Z|a-z]{2,}\b` after `n`
domain characters have been consumed: consuming a further domain character
is tried first (greedy `+`); on failure, if at least one domain character
was consumed, the literal `.` is matched here followed by the final
segment. -/
def domSplit : List Char → Nat → Option Nat
  | [], _ => none
  | c :: rest, n =>
    match (if isDomChar c then domSplit rest (n + 1) else none) with
    | some L => some L
    | none =>
      if c = '.' ∧ 1 ≤ n then
        match tldTry (rest.takeWhile isTldChar) (rest.dropWhile isTldChar).head? with
        | some t => some (n + 1 + t)
        | none => none
      else none

/-- Match `\b[A-Za-z0-9._%+-]+@[A-Za-z0-9.-]+\.[A-Z|a-z]{2,}\b` at the
head of `l`, given whether the previous character was a word character.
The local part must be the full greedy run of local characters (the
following `@` is not a local character), preceded by a word boundary. -/
def matchEmail (prevWord : Bool) (l : List Char) : Option Nat :=
  match l with
  | [] => none
  | c :: _ =>
    if prevWord == isWordChar c then none
    else
      let lrun := l.takeWhile isLocalChar
      if lrun.isEmpty then none
      else
        match l.drop lrun.length with
        | '@' :: drest =>
          match domSplit drest 0 with
          | some L => some (lrun.length + 1 + L)
          | none => none
        | _ => none

/-- `re.sub` of the email pattern with `[EMAIL]`; the Boolean tracks the
word-ness of the previous character for the leading `\b`. -/
def sub_email_aux : Nat → Bool → List Char → List Char
  | 0, _, l => l
  | _, _, [] => []
  | fuel + 1, prevWord, c :: rest =>
    match matchEmail prevWord (c :: rest) with
    | some L =>
      "[EMAIL]".toList ++
        sub_email_aux fuel (wordAt (((c :: rest).take L).getLast?)) ((c :: rest).drop L)
    | none => c :: sub_email_aux fuel (isWordChar c) rest

/-- Fourth substitution of `sanitize_error_message`. -/
def sub_email (l : List Char) : List Char := sub_email_aux l.length false l

/-- `utils.sanitize_error_message`: redact POSIX path shapes, Windows path
shapes, long digit-bearing identifiers and email shapes, in this order. -/
def sanitize_error_message (l : List Char) : List Char :=
  sub_email (sub_id (sub_winpath (sub_path l)))

/-! ## Theorems -/

/-- Claim C3: `require_confirmation` returns True exactly when the dialog
subprocess exits with code 0 and its stdout contains the literal token
`Confirm`; a timeout or any dialog-presentation error denies; and a
non-`None` `auto_confirm` override is returned directly, for every dialog
outcome (so no subprocess behaviour can influence the result). -/
theorem require_confirmation_spec :
    (∀ (b : Bool) (d : DialogOutcome), require_confirmation (some b) d = b)
    ∧ (∀ (rc : Int) (out : List Char),
        require_confirmation none (DialogOutcome.completed rc out) = true ↔
          rc = 0 ∧ "Confirm".toList <:+: out)
    ∧ require_confirmation none DialogOutcome.timedOut = false
    ∧ require_confirmation none DialogOutcome.failed = false := by
  refine ⟨fun b d => rfl, fun rc out => ?_, rfl, rfl⟩
  simp [require_confirmation]

/-- Witness for C3 at concrete inputs: the override short-circuits, and a
zero exit code with `Confirm` on stdout confirms. -/
theorem require_confirmation_spec_witness :
    require_confirmation (some false) (DialogOutcome.completed 0 "Confirm".toList) = false
    ∧ require_confirmation none (DialogOutcome.completed 0 "please Confirm now".toList) = true :=
  ⟨require_confirmation_spec.1 false (DialogOutcome.completed 0 "Confirm".toList),
   (require_confirmation_spec.2.1 0 "please Confirm now".toList).mpr ⟨rfl, by decide⟩⟩

/-- Claim C10: `validate_bulk_operation` rejects exactly an item count of
0 or one strictly above `max_items`; in particular every strictly negative
item count passes validation (with the default maximum of 100) and yields
an empty error message. -/
theorem validate_bulk_operation_spec :
    (∀ n m : Int, (validate_bulk_operation n m).1 = false ↔ n = 0 ∨ m < n)
    ∧ (∀ n : Int, n < 0 → validate_bulk_operation n 100 = (true, "")) := by
  constructor
  · intro n m
    by_cases hn : n = 0 <;> by_cases hm : m < n <;>
      simp [validate_bulk_operation, hn, hm]
  · intro n hn
    have h1 : ¬n = 0 := by omega
    have h2 : ¬(100 : Int) < n := by omega
    simp [validate_bulk_operation, h1, h2]

/-- Witness for C10: a negative batch size of −5 passes validation. -/
theorem validate_bulk_operation_spec_witness :
    validate_bulk_operation (-5) 100 = (true, "")
    ∧ ((validate_bulk_operation 150 100).1 = false ↔ (150 : Int) = 0 ∨ (100 : Int) < 150) :=
  ⟨validate_bulk_operation_spec.2 (-5) (by decide),
   validate_bulk_operation_spec.1 150 100⟩

/-- Claim C9 amended: `log_operation` appends exactly one record, leaving
all existing records unchanged and in order (the history is an unbounded
list, not a bounded ring), and for every limit `N ≥ 1`
`get_recent_operations` returns the most recent `min(N, total)` records as
a suffix, in append order. -/
theorem operation_logger_spec :
    (∀ (lg : OperationLogger) (ts op : String)
        (ps : List (String × String)) (r : String),
        (lg.log_operation ts op ps r).operations.length = lg.operations.length + 1
        ∧ (lg.log_operation ts op ps r).operations.take lg.operations.length = lg.operations
        ∧ (lg.log_operation ts op ps r).operations.getLast? = some ⟨ts, op, ps, r⟩)
    ∧ (∀ (lg : OperationLogger) (n : Int), 1 ≤ n →
        (lg.get_recent_operations n).length = min n.toNat lg.operations.length
        ∧ lg.get_recent_operations n <:+ lg.operations) := by
  constructor
  · intro lg ts op ps r
    refine ⟨by simp [OperationLogger.log_operation], ?_, ?_⟩
    · simp only [OperationLogger.log_operation]
      exact List.take_left lg.operations [(⟨ts, op, ps, r⟩ : OperationRecord)]
    · simp [OperationLogger.log_operation]
  · intro lg n hn
    have hneg : ¬(0 : Int) ≤ -n := by omega
    have habs : (-n).natAbs = n.toNat := by omega
    constructor
    · simp only [OperationLogger.get_recent_operations, pySliceFrom, if_neg hneg,
        habs, List.length_drop]
      omega
    · simp only [OperationLogger.get_recent_operations, pySliceFrom, if_neg hneg, habs]
      exact List.drop_suffix _ _

/-- Counterexample to claim C9 as stated: with two records logged,
`get_recent_operations(0)` returns both records (Python `l[-0:]` is the
whole list), not the claimed `min(0, total) = 0` most recent records. -/
theorem get_recent_operations_zero_counterexample :
    twoRecordLogger.get_recent_operations 0 = twoRecordLogger.operations
    ∧ twoRecordLogger.operations.length = 2 :=
  ⟨rfl, rfl⟩

/-- Witness for C9 at a concrete logger and limit 1. -/
theorem operation_logger_spec_witness :
    (twoRecordLogger.get_recent_operations 1).length
        = min (1 : Int).toNat twoRecordLogger.operations.length
    ∧ twoRecordLogger.get_recent_operations 1 <:+ twoRecordLogger.operations :=
  operation_logger_spec.2 twoRecordLogger 1 (by decide)

/-- After `k` same-timestamp checks on a fresh limiter with a positive
window, the operation's recorded timestamps are `min k max` copies of
`now`: the first `max` calls are admitted, later ones denied. -/
theorem checkRepeat_operation_times (op : String) (now w m : Int)
    (hw : 0 < w) (hm : 0 ≤ m) :
    ∀ k : Nat, (RateLimiter.empty.checkRepeat op now w m k).operation_times op
      = List.replicate (min k m.toNat) now := by
  have hpred : (decide (now - w < now)) = true := by simp; omega
  intro k
  induction k with
  | zero => simp [RateLimiter.checkRepeat, RateLimiter.empty]
  | succ k ih =>
    rw [RateLimiter.checkRepeat, RateLimiter.check]
    simp only [ih, List.filter_replicate, hpred, if_true]
    by_cases hfull : m ≤ ((List.replicate (min k m.toNat) now).length : Int)
    · have h1 : min k m.toNat = m.toNat := by
        simp only [List.length_replicate] at hfull
        omega
      have h2 : min (k + 1) m.toNat = m.toNat := by omega
      simp [hfull, h1, h2]
    · have h1 : min k m.toNat = k := by
        simp only [List.length_replicate] at hfull
        omega
      have h2 : min (k + 1) m.toNat = k + 1 := by
        simp only [List.length_replicate, h1] at hfull
        omega
      have hlt : ¬ m ≤ (k : Int) := by
        simp only [List.length_replicate, h1] at hfull
        exact hfull
      simp [hfull, h1, h2, hlt, List.replicate_succ']

/-- Claim C2: `check` first prunes the operation's timestamps to those
strictly newer than `now - window_seconds`, admits (recording `now`)
exactly when fewer than `max_operations` remain and denies without
recording otherwise; the result depends only on the checked operation's
own history and other operations' histories are untouched; after exactly
`max_operations` admitted calls within the window the next check within
the window is denied, and a check after the window has elapsed is admitted
again. -/
theorem rate_limiter_check_spec :
    (∀ (rl : RateLimiter) (op : String) (now w m : Int),
        ((rl.check op now w m).1
          = decide ((((rl.operation_times op).filter
              (fun t => decide (now - w < t))).length : Int) < m))
        ∧ ((rl.check op now w m).2.operation_times op
          = if ((((rl.operation_times op).filter
                (fun t => decide (now - w < t))).length : Int) < m)
            then (rl.operation_times op).filter (fun t => decide (now - w < t)) ++ [now]
            else (rl.operation_times op).filter (fun t => decide (now - w < t))))
    ∧ (∀ (rl : RateLimiter) (op op2 : String) (now w m : Int), op2 ≠ op →
        (rl.check op now w m).2.operation_times op2 = rl.operation_times op2)
    ∧ (∀ (rl rl2 : RateLimiter) (op : String) (now w m : Int),
        rl.operation_times op = rl2.operation_times op →
        (rl.check op now w m).1 = (rl2.check op now w m).1)
    ∧ (∀ (op : String) (now w m : Int), 0 < w → 0 ≤ m →
        (∀ k : Nat, (k : Int) < m →
          ((RateLimiter.empty.checkRepeat op now w m k).check op now w m).1 = true)
        ∧ (∀ now2 : Int, now ≤ now2 → now2 - now < w →
          ((RateLimiter.empty.checkRepeat op now w m m.toNat).check op now2 w m).1 = false)
        ∧ (∀ now3 : Int, 0 < m → w ≤ now3 - now →
          ((RateLimiter.empty.checkRepeat op now w m m.toNat).check op now3 w m).1 = true)) := by
  refine ⟨fun rl op now w m => ⟨?_, ?_⟩, fun rl op op2 now w m h => ?_,
    fun rl rl2 op now w m h => ?_, fun op now w m hw hm => ⟨?_, ?_, ?_⟩⟩
  · by_cases hfull : m ≤ ((((rl.operation_times op).filter
        (fun t => decide (now - w < t))).length : Int))
    · simp [RateLimiter.check, hfull]
      try omega
    · simp [RateLimiter.check, hfull]
      try omega
  · by_cases hfull : m ≤ ((((rl.operation_times op).filter
        (fun t => decide (now - w < t))).length : Int))
    · have : ¬((((rl.operation_times op).filter
          (fun t => decide (now - w < t))).length : Int) < m) := by omega
      simp [RateLimiter.check, hfull, this]
    · have : ((((rl.operation_times op).filter
          (fun t => decide (now - w < t))).length : Int) < m) := by omega
      simp [RateLimiter.check, hfull, this]
  · rw [RateLimiter.check]
    by_cases hfull : m ≤ ((((rl.operation_times op).filter
        (fun t => decide (now - w < t))).length : Int)) <;> simp [hfull, h]
  · rw [RateLimiter.check, RateLimiter.check, h]
    by_cases hfull : m ≤ ((((rl2.operation_times op).filter
        (fun t => decide (now - w < t))).length : Int)) <;> simp [hfull]
  · intro k hk
    rw [RateLimiter.check]
    have hpred : (decide (now - w < now)) = true := by simp; omega
    have hmin : min k m.toNat = k := by omega
    rw [checkRepeat_operation_times op now w m hw hm k]
    simp only [List.filter_replicate, hpred, if_true, List.length_replicate, hmin]
    have : ¬ m ≤ (k : Int) := by omega
    simp [this]
  · intro now2 h1 h2
    rw [RateLimiter.check]
    have hpred : (decide (now2 - w < now)) = true := by simp; omega
    rw [checkRepeat_operation_times op now w m hw hm m.toNat]
    simp only [List.filter_replicate, hpred, if_true, List.length_replicate, min_self]
    have : m ≤ (m.toNat : Int) := by omega
    simp [this]
  · intro now3 hm0 h1
    rw [RateLimiter.check]
    have hpred : (decide (now3 - w < now)) = false := by simp; omega
    rw [checkRepeat_operation_times op now w m hw hm m.toNat]
    simp only [List.filter_replicate, hpred, if_false]
    have h0 : ¬ m ≤ (0 : Int) := by omega
    simp [h0]

/-- Witness for C2 in a concrete scenario: with a 60-second window and a
budget of 2, the first call on a fresh limiter is admitted, the call after
the 2 admitted ones is denied 30 seconds in, a call at 60 seconds is
admitted again, and a check on one name leaves another name's history
untouched. -/
theorem rate_limiter_check_spec_witness :
    ((RateLimiter.empty.checkRepeat "send_email" 0 60 2 0).check "send_email" 0 60 2).1 = true
    ∧ ((RateLimiter.empty.checkRepeat "send_email" 0 60 2 (2 : Int).toNat).check
        "send_email" 30 60 2).1 = false
    ∧ ((RateLimiter.empty.checkRepeat "send_email" 0 60 2 (2 : Int).toNat).check
        "send_email" 60 60 2).1 = true
    ∧ (RateLimiter.empty.check "send_email" 0 60 2).2.operation_times "get_unread_count"
        = RateLimiter.empty.operation_times "get_unread_count" :=
  ⟨(rate_limiter_check_spec.2.2.2 "send_email" 0 60 2 (by decide) (by decide)).1 0 (by decide),
   (rate_limiter_check_spec.2.2.2 "send_email" 0 60 2 (by decide) (by decide)).2.1 30
     (by decide) (by decide),
   (rate_limiter_check_spec.2.2.2 "send_email" 0 60 2 (by decide) (by decide)).2.2 60
     (by decide) (by decide),
   rate_limiter_check_spec.2.1 RateLimiter.empty "send_email" "get_unread_count" 0 60 2
     (by decide)⟩

/-- A `check` step keeps every stored sequence sorted and bounded by the
current wall clock reading. -/
theorem check_preserves_invariant (rl : RateLimiter) (op : String)
    (now w m t0 : Int) (hs : timesSorted rl) (hle : timesLE rl t0) (ht : t0 ≤ now) :
    timesSorted (rl.check op now w m).2 ∧ timesLE (rl.check op now w m).2 now := by
  have hmem : ∀ x ∈ (rl.operation_times op).filter (fun t => decide (now - w < t)),
      x ≤ now := by
    intro x hx
    exact le_trans (hle op x (List.mem_filter.1 hx).1) ht
  constructor
  · intro op2
    rw [RateLimiter.check]
    by_cases hfull : m ≤ ((((rl.operation_times op).filter
        (fun t => decide (now - w < t))).length : Int)) <;>
      simp only [hfull, if_true, if_false, ite_true, ite_false] <;>
      by_cases hop : op2 = op <;> simp only [hop, if_pos, if_neg, ite_true, ite_false]
    · exact (hs op).filter _
    · exact hs op2
    · refine List.pairwise_append.2 ⟨(hs op).filter _, List.pairwise_singleton _ _, ?_⟩
      intro x hx y hy
      rw [List.mem_singleton] at hy
      exact hy ▸ hmem x hx
    · exact hs op2
  · intro op2 t htmem
    rw [RateLimiter.check] at htmem
    by_cases hfull : m ≤ ((((rl.operation_times op).filter
        (fun t => decide (now - w < t))).length : Int)) <;>
      simp only [hfull, if_true, if_false, ite_true, ite_false] at htmem <;>
      by_cases hop : op2 = op <;>
        simp only [hop, if_pos, if_neg, ite_true, ite_false] at htmem
    · exact hmem t htmem
    · exact le_trans (hle op2 t htmem) ht
    · rcases List.mem_append.1 htmem with h | h
      · exact hmem t h
      · rw [List.mem_singleton] at h
        omega
    · exact le_trans (hle op2 t htmem) ht

/-- A `reset` step keeps every stored sequence sorted and bounded. -/
theorem reset_preserves_invariant (rl : RateLimiter) (o : Option String) (t0 : Int)
    (hs : timesSorted rl) (hle : timesLE rl t0) :
    timesSorted (rl.reset o) ∧ timesLE (rl.reset o) t0 := by
  constructor
  · intro op2
    rcases o with _ | op
    · simp [RateLimiter.reset]
    · rw [RateLimiter.reset]
      by_cases he : op = "" <;> simp only [he, if_true, if_false, ite_true, ite_false]
      · simp
      · by_cases hop : op2 = op <;> simp only [hop, ite_true, ite_false]
        · simp
        · exact hs op2
  · intro op2 t htmem
    rcases o with _ | op
    · simp [RateLimiter.reset] at htmem
    · rw [RateLimiter.reset] at htmem
      by_cases he : op = "" <;>
        simp only [he, if_true, if_false, ite_true, ite_false] at htmem
      · simp at htmem
      · by_cases hop : op2 = op <;> simp only [hop, ite_true, ite_false] at htmem
        · simp at htmem
        · exact hle op2 t htmem

/-- Claim C8 amended: after a `check` with a positive window completes,
the checked operation's stored timestamps are all strictly newer than
`now - window_seconds`; and along every sequence of `check` and `reset`
interactions under a non-decreasing wall clock, every operation's stored
sequence stays monotonically non-decreasing and bounded by the last clock
reading. -/
theorem rate_limiter_invariant_spec :
    (∀ (rl : RateLimiter) (op : String) (now w m : Int), 0 < w →
        ∀ t ∈ ((rl.check op now w m).2).operation_times op, now - w < t)
    ∧ (∀ (evs : List RLEvent) (rl : RateLimiter) (t0 : Int),
        timesSorted rl → timesLE rl t0 → rlEventsMono t0 evs →
        timesSorted (runRLEvents rl evs)
        ∧ timesLE (runRLEvents rl evs) (rlEventsEnd t0 evs)) := by
  constructor
  · intro rl op now w m hw t ht
    rw [RateLimiter.check] at ht
    by_cases hfull : m ≤ ((((rl.operation_times op).filter
        (fun t => decide (now - w < t))).length : Int)) <;>
      simp only [hfull, if_true, if_false, ite_true, ite_false] at ht
    · simpa using (List.mem_filter.1 ht).2
    · rcases List.mem_append.1 ht with h | h
      · simpa using (List.mem_filter.1 h).2
      · rw [List.mem_singleton] at h
        omega
  · intro evs
    induction evs with
    | nil => exact fun rl t0 hs hle _ => ⟨hs, hle⟩
    | cons e rest ih =>
      intro rl t0 hs hle hmono
      rcases e with ⟨op, now, w, m⟩ | o
      · rcases hmono with ⟨hnow, hrest⟩
        have step := check_preserves_invariant rl op now w m t0 hs hle hnow
        exact ih (rl.check op now w m).2 now step.1 step.2 hrest
      · have step := reset_preserves_invariant rl o t0 hs hle
        exact ih (rl.reset o) t0 step.1 step.2 hmono

/-- Counterexample to claim C8 as stated: a `check` with a zero-length
window records `now` itself, which is a timestamp at (not strictly after)
`now - window_seconds`. -/
theorem rate_limiter_freshness_counterexample :
    (0 : Int) ∈ ((RateLimiter.empty.check "a" 0 0 1).2).operation_times "a"
    ∧ (0 : Int) ≤ 0 - 0 :=
  ⟨by decide, by decide⟩

/-- Witness for C8: freshness of the single recorded timestamp after one
concrete check, and preservation of the invariant along a concrete
check/reset/check trace from the empty limiter. -/
theorem rate_limiter_invariant_spec_witness :
    ((5 : Int) - 60 < 5)
    ∧ (timesSorted (runRLEvents RateLimiter.empty
          [RLEvent.check "a" 5 60 10, RLEvent.reset (some "a"), RLEvent.check "b" 7 60 10])
      ∧ timesLE (runRLEvents RateLimiter.empty
          [RLEvent.check "a" 5 60 10, RLEvent.reset (some "a"), RLEvent.check "b" 7 60 10])
          (rlEventsEnd 0 [RLEvent.check "a" 5 60 10, RLEvent.reset (some "a"),
            RLEvent.check "b" 7 60 10])) :=
  ⟨rate_limiter_invariant_spec.1 RateLimiter.empty "a" 5 60 10 (by decide) 5 (by decide),
   rate_limiter_invariant_spec.2
     [RLEvent.check "a" 5 60 10, RLEvent.reset (some "a"), RLEvent.check "b" 7 60 10]
     RateLimiter.empty 0 (fun op => List.sorted_nil) (fun op t ht => absurd ht (List.not_mem_nil t))
     ⟨by decide, by decide, trivial⟩⟩

/-- Replacing a character by the empty block is filtering it out. -/
theorem pyReplaceChar_nil_eq_filter (a : Char) :
    ∀ l : List Char, pyReplaceChar a [] l = l.filter (fun c => !(c == a)) := by
  intro l
  induction l with
  | nil => rfl
  | cons c t ih =>
    by_cases h : c = a <;> simp [pyReplaceChar, List.filter_cons, h, ih]

/-- Removing `..` occurrences introduces no new characters. -/
theorem mem_replaceDotDot {c : Char} :
    ∀ l : List Char, c ∈ replaceDotDot l → c ∈ l := by
  intro l
  induction l using replaceDotDot.induct with
  | case1 t ih =>
    intro h
    rw [replaceDotDot] at h
    exact List.mem_cons_of_mem _ (List.mem_cons_of_mem _ (ih h))
  | case2 hd t hne ih =>
    intro h
    rw [replaceDotDot] at h
    · rcases List.mem_cons.1 h with h | h
      · exact h ▸ List.mem_cons_self _ _
      · exact List.mem_cons_of_mem _ (ih h)
    · exact hne
  | case3 => exact fun h => h

/-- The head of a `dropWhile` never satisfies the dropped predicate. -/
theorem head_dropWhile_false (p : Char → Bool) :
    ∀ (l : List Char) (c : Char), (l.dropWhile p).head? = some c → p c = false := by
  intro l
  induction l with
  | nil => intro c h; simp at h
  | cons a t ih =>
    intro c h
    rw [List.dropWhile_cons] at h
    by_cases ha : p a = true
    · exact ih c (by simpa [ha] using h)
    · rw [Bool.not_eq_true] at ha
      rw [ha] at h
      simp only [Bool.false_eq_true, if_false, ite_false, List.head?_cons,
        Option.some.injEq] at h
      subst h
      exact ha

/-- A non-empty `dropWhile` result shares its last element with the
original list. -/
theorem getLast?_dropWhile (p : Char → Bool) (l : List Char) (c : Char)
    (h : (l.dropWhile p).getLast? = some c) : l.getLast? = some c := by
  rcases List.dropWhile_suffix p (l := l) with ⟨pre, hpre⟩
  rw [← hpre, List.getLast?_append, h]
  rfl

/-- Stripping whitespace introduces no new characters. -/
theorem mem_pyStrip {c : Char} {l : List Char} (h : c ∈ pyStrip l) : c ∈ l := by
  rw [pyStrip] at h
  rw [List.mem_reverse] at h
  have h2 := (List.dropWhile_suffix pyIsSpace).sublist.mem h
  rw [List.mem_reverse] at h2
  exact (List.dropWhile_suffix pyIsSpace).sublist.mem h2

/-- The first character of a stripped string is not whitespace. -/
theorem head_pyStrip_not_space (l : List Char) (c : Char)
    (h : (pyStrip l).head? = some c) : pyIsSpace c = false := by
  rw [pyStrip, List.head?_reverse] at h
  have h2 := getLast?_dropWhile pyIsSpace _ c h
  rw [List.getLast?_reverse] at h2
  exact head_dropWhile_false pyIsSpace _ c h2

/-- The last character of a stripped string is not whitespace. -/
theorem getLast_pyStrip_not_space (l : List Char) (c : Char)
    (h : (pyStrip l).getLast? = some c) : pyIsSpace c = false := by
  rw [pyStrip, List.getLast?_reverse] at h
  exact head_dropWhile_false pyIsSpace _ c h

/-- Claim C5 amended: for every input, `sanitize_mailbox_name` returns a
string with no NUL byte, no `/`, no `\` , none of the characters
`<>:"|?*`, and no leading or trailing whitespace.  (The `..` guarantee of
the original claim does not hold: `..` is removed before `/` and `\` are,
so deleting those characters can rejoin two dots.) -/
theorem sanitize_mailbox_name_spec :
    ∀ s : List Char,
      '\x00' ∉ sanitize_mailbox_name s
      ∧ '/' ∉ sanitize_mailbox_name s
      ∧ '\\' ∉ sanitize_mailbox_name s
      ∧ (∀ c ∈ sanitize_mailbox_name s, dangerousMailboxChar c = false)
      ∧ (∀ c, (sanitize_mailbox_name s).head? = some c → pyIsSpace c = false)
      ∧ (∀ c, (sanitize_mailbox_name s).getLast? = some c → pyIsSpace c = false) := by
  intro s
  have key : ∀ c ∈ sanitize_mailbox_name s,
      c ≠ '\x00' ∧ c ≠ '/' ∧ c ≠ '\\' ∧ dangerousMailboxChar c = false := by
    intro c hc
    simp only [sanitize_mailbox_name] at hc
    have h5 := mem_pyStrip hc
    rw [List.mem_filter] at h5
    obtain ⟨h4, hdang⟩ := h5
    rw [pyReplaceChar_nil_eq_filter, List.mem_filter] at h4
    obtain ⟨h3, hbs⟩ := h4
    rw [pyReplaceChar_nil_eq_filter, List.mem_filter] at h3
    obtain ⟨h2, hsl⟩ := h3
    have h1 := mem_replaceDotDot _ h2
    rw [pyReplaceChar_nil_eq_filter, List.mem_filter] at h1
    obtain ⟨h0, hnul⟩ := h1
    refine ⟨by simpa using hnul, by simpa using hsl, by simpa using hbs, by simpa using hdang⟩
  refine ⟨fun h => ((key _ h).1 rfl), fun h => ((key _ h).2.1 rfl),
    fun h => ((key _ h).2.2.1 rfl), fun c hc => (key c hc).2.2.2, ?_, ?_⟩
  · intro c hc
    simp only [sanitize_mailbox_name] at hc
    exact head_pyStrip_not_space _ c hc
  · intro c hc
    simp only [sanitize_mailbox_name] at hc
    exact getLast_pyStrip_not_space _ c hc

/-- Counterexample to claim C5 as stated: sanitizing `./.` removes the
slash after the `..` pass has already run, leaving the result `..`. -/
theorem sanitize_mailbox_name_dotdot_counterexample :
    sanitize_mailbox_name ['.', '/', '.'] = ['.', '.']
    ∧ hasDoubleDot (sanitize_mailbox_name ['.', '/', '.']) = true := by
  refine ⟨by decide, by decide⟩

/-- Witness for C5 at the concrete input `" a<b/ "`. -/
theorem sanitize_mailbox_name_spec_witness :
    '/' ∉ sanitize_mailbox_name " a<b/ ".toList ∧ pyIsSpace 'a' = false :=
  ⟨(sanitize_mailbox_name_spec " a<b/ ".toList).2.1,
   (sanitize_mailbox_name_spec " a<b/ ".toList).2.2.2.2.1 'a' (by decide)⟩

/-- A Python slice `l[:n]` introduces no new characters. -/
theorem mem_pySliceTake {c : Char} {n : Int} {l : List Char}
    (h : c ∈ pySliceTake n l) : c ∈ l := by
  rw [pySliceTake] at h
  split at h <;> exact List.mem_of_mem_take h

/-- Both halves of `rsplit('.', 1)` are made of characters of the input. -/
theorem mem_rsplitDot {c : Char} {l : List Char} :
    (c ∈ (rsplitDot l).1 → c ∈ l) ∧ (c ∈ (rsplitDot l).2 → c ∈ l) := by
  constructor
  · intro h
    exact List.mem_of_mem_take h
  · intro h
    rw [rsplitDot] at h
    simp only [List.mem_reverse] at h
    have h2 := List.Sublist.mem h (List.IsPrefix.sublist (List.takeWhile_prefix _))
    rw [List.mem_reverse] at h2
    exact h2

/-- Every character produced by the pre-cap filename pipeline lies in
`[a-zA-Z0-9._-]`. -/
theorem mem_sanitize_filename_precap (s : List Char) :
    ∀ c ∈ sanitize_filename_precap s, isFnChar c = true := by
  intro c hc
  simp only [sanitize_filename_precap] at hc
  have h3 := (List.dropWhile_suffix (fun c => c == '.')).sublist.mem hc
  rw [List.mem_map] at h3
  obtain ⟨a, _, ha⟩ := h3
  by_cases hfa : isFnChar a = true
  · rw [if_pos hfa] at ha
    exact ha ▸ hfa
  · rw [if_neg hfa] at ha
    exact ha ▸ (by decide)

/-- Claim C6 amended: `sanitize_filename` keeps only the final path
component, replaces characters outside `[a-zA-Z0-9._-]` by `_`, strips
leading dots and substitutes a fixed placeholder for an empty result, as
claimed; every character of the result lies in `[a-zA-Z0-9._-]`, the
result is never empty, and the three concrete examples hold.  The
255-character cap, however, only holds when the pre-cap name has no
extension or an extension of at most 254 characters: a longer extension is
preserved in full and the result then exceeds 255 characters. -/
theorem sanitize_filename_spec :
    (∀ s : List Char, ∀ c ∈ sanitize_filename s, isFnChar c = true)
    ∧ (∀ s : List Char, sanitize_filename s ≠ [])
    ∧ (∀ s : List Char,
        ('.' ∉ sanitize_filename_precap s
          ∨ (rsplitDot (sanitize_filename_precap s)).2.length ≤ 254) →
        (sanitize_filename s).length ≤ 255)
    ∧ sanitize_filename "../../../etc/passwd".toList = "passwd".toList
    ∧ sanitize_filename "file:name.txt".toList = "file_name.txt".toList
    ∧ sanitize_filename "file\x00name.txt".toList = "filename.txt".toList := by
  refine ⟨?_, ?_, ?_, by decide, by decide, by decide⟩
  · intro s c hc
    simp only [sanitize_filename] at hc
    repeat' split at hc
    all_goals
      first
        | exact (by decide : ∀ x ∈ "unnamed_file".toList, isFnChar x = true) c hc
        | (rcases List.mem_append.1 hc with h | h
           · exact mem_sanitize_filename_precap s c (mem_rsplitDot.1 (mem_pySliceTake h))
           · rcases List.mem_cons.1 h with h | h
             · exact h ▸ (by decide)
             · exact mem_sanitize_filename_precap s c (mem_rsplitDot.2 h))
        | exact mem_sanitize_filename_precap s c (List.mem_of_mem_take hc)
        | exact mem_sanitize_filename_precap s c hc
  · intro s
    simp only [sanitize_filename]
    repeat' split
    all_goals simp_all [List.isEmpty_iff]
  · intro s hcond
    simp only [sanitize_filename]
    by_cases h1 : 255 < (sanitize_filename_precap s).length
    · rw [if_pos h1]
      by_cases h2 : '.' ∈ sanitize_filename_precap s
      · rw [if_pos h2]
        by_cases h3 : (!(rsplitDot (sanitize_filename_precap s)).2.isEmpty) = true
        · rw [if_pos h3]
          have hext : (rsplitDot (sanitize_filename_precap s)).2.length ≤ 254 := by
            rcases hcond with h | h
            · exact absurd h2 h
            · exact h
          have h0 : (0 : Int) ≤
              255 - ((rsplitDot (sanitize_filename_precap s)).2.length : Int) - 1 := by
            omega
          have hlen : (pySliceTake
              (255 - ((rsplitDot (sanitize_filename_precap s)).2.length : Int) - 1)
              (rsplitDot (sanitize_filename_precap s)).1 ++
                '.' :: (rsplitDot (sanitize_filename_precap s)).2).length ≤ 255 := by
            rw [pySliceTake, if_pos h0]
            have hmin := min_le_left
              ((255 - ((rsplitDot (sanitize_filename_precap s)).2.length : Int) - 1).toNat)
              (rsplitDot (sanitize_filename_precap s)).1.length
            simp only [List.length_append, List.length_take, List.length_cons]
            omega
          split
          · decide
          · exact hlen
        · rw [if_neg h3]
          split
          · decide
          · rw [List.length_take]
            omega
      · rw [if_neg h2]
        split
        · decide
        · rw [List.length_take]
          omega
    · rw [if_neg h1]
      split
      · decide
      · omega

set_option maxRecDepth 8000 in
/-- Counterexample to claim C6 as stated: a name whose extension is 255
characters long is sanitized to a 256-character result — the negative
Python slice `name[:255 - len(ext) - 1]` empties the stem but keeps the
whole extension, so the claimed 255-character cap is exceeded. -/
theorem sanitize_filename_cap_counterexample :
    255 < (sanitize_filename (['a', '.'] ++ List.replicate 255 'b')).length
    ∧ (sanitize_filename (['a', '.'] ++ List.replicate 255 'b')).length = 256 := by
  refine ⟨by decide, by decide⟩

/-- Witness for C6: the cap clause applied at the concrete input
`file.txt`. -/
theorem sanitize_filename_spec_witness :
    (sanitize_filename "file.txt".toList).length ≤ 255 :=
  sanitize_filename_spec.2.2.1 "file.txt".toList (Or.inr (by decide))

/-- Claim C7: `sanitize_error_message` replaces the path in the first
example by `[PATH]` (leaving no trace of the original path), replaces the
long digit-bearing identifier and the email address of the second example
by `[ID]` and `[EMAIL]`, and none of the later substitutions re-matches an
already-substituted placeholder token: each of `[PATH]` and `[ID]` passes
through every subsequent substitution unchanged. -/
theorem sanitize_error_message_spec :
    sanitize_error_message "Error in /Users/me/secrets/config.py: Invalid value".toList
      = "Error in [PATH]: Invalid value".toList
    ∧ sanitize_error_message "Message ID1234567890 failed for user@example.com".toList
      = "Message [ID] failed for [EMAIL]".toList
    ∧ sub_winpath "[PATH]".toList = "[PATH]".toList
    ∧ sub_id "[PATH]".toList = "[PATH]".toList
    ∧ sub_email "[PATH]".toList = "[PATH]".toList
    ∧ sub_email "[ID]".toList = "[ID]".toList := by
  refine ⟨by decide, by decide, by decide, by decide, by decide, by decide⟩

/-- Single-character replacement distributes over concatenation. -/
theorem pyReplaceChar_append (a : Char) (r : List Char) :
    ∀ l₁ l₂ : List Char,
      pyReplaceChar a r (l₁ ++ l₂) = pyReplaceChar a r l₁ ++ pyReplaceChar a r l₂ := by
  intro l₁ l₂
  induction l₁ with
  | nil => rfl
  | cons c t ih => simp [pyReplaceChar, ih]

/-- The five escape passes of `escape_applescript_string`, run in order,
encode each character independently. -/
theorem escape_stages_eq_flatMap :
    ∀ l : List Char,
      pyReplaceChar '\t' ['\\', 't'] (pyReplaceChar '\n' ['\\', 'n']
        (pyReplaceChar '\r' ['\\', 'r'] (pyReplaceChar '"' ['\\', '"']
          (pyReplaceChar '\\' ['\\', '\\'] l)))) = l.flatMap encodeChar := by
  intro l
  induction l with
  | nil => rfl
  | cons c t ih =>
    have hsplit : ∀ (a : Char) (r : List Char),
        pyReplaceChar a r (c :: t) = pyReplaceChar a r [c] ++ pyReplaceChar a r t := by
      intro a r
      simp [pyReplaceChar]
    rw [hsplit '\\', pyReplaceChar_append '"', pyReplaceChar_append '\r',
      pyReplaceChar_append '\n', pyReplaceChar_append '\t', ih, List.flatMap_cons]
    congr 1
    by_cases h1 : c = '\\'
    · subst h1; decide
    · by_cases h2 : c = '"'
      · subst h2; decide
      · by_cases h3 : c = '\r'
        · subst h3; decide
        · by_cases h4 : c = '\n'
          · subst h4; decide
          · by_cases h5 : c = '\t'
            · subst h5; decide
            · simp [pyReplaceChar, encodeChar, h1, h2, h3, h4, h5]

/-- `escape_applescript_string` is the control filter followed by the
per-character encoding. -/
theorem escape_applescript_string_eq_flatMap (s : List Char) :
    escape_applescript_string s = (s.filter ctrlKeep).flatMap encodeChar := by
  rw [escape_applescript_string]
  rw [pyReplaceChar_nil_eq_filter, List.filter_filter]
  rw [show (s.filter fun c => ctrlKeep c && !(c == '\x00')) = s.filter ctrlKeep from ?_]
  · exact escape_stages_eq_flatMap _
  · apply List.filter_congr
    intro c _
    by_cases h : c = '\x00'
    · subst h; decide
    · simp [h]

/-- The encoded form of a control-filtered string is well escaped. -/
theorem escChain_flatMap_encodeChar :
    ∀ l : List Char, (∀ c ∈ l, ctrlKeep c = true) → EscChain (l.flatMap encodeChar) := by
  intro l
  induction l with
  | nil => exact fun _ => EscChain.nil
  | cons c t ih =>
    intro h
    rw [List.flatMap_cons]
    have ht := ih (fun x hx => h x (List.mem_cons_of_mem c hx))
    have hc := h c (List.mem_cons_self c t)
    by_cases h1 : c = '\\'
    · subst h1
      exact EscChain.esc '\\' _ (by decide) ht
    · by_cases h2 : c = '"'
      · subst h2
        exact EscChain.esc '"' _ (by decide) ht
      · by_cases h3 : c = '\r'
        · subst h3
          exact EscChain.esc 'r' _ (by decide) ht
        · by_cases h4 : c = '\n'
          · subst h4
            exact EscChain.esc 'n' _ (by decide) ht
          · by_cases h5 : c = '\t'
            · subst h5
              exact EscChain.esc 't' _ (by decide) ht
            · have hge : 0x20 ≤ c.toNat := by
                rw [ctrlKeep] at hc
                simp only [Bool.or_eq_true, decide_eq_true_eq, beq_iff_eq] at hc
                rcases hc with ((hc | hc) | hc) | hc
                · exact hc
                · exact absurd hc h5
                · exact absurd hc h4
                · exact absurd hc h3
              simp only [encodeChar, if_neg h1, if_neg h2, if_neg h3, if_neg h4, if_neg h5]
              exact EscChain.plain c _ hge h1 h2 ht

/-- A well-escaped string contains no character below `0x20`. -/
theorem escChain_printable {l : List Char} (h : EscChain l) :
    ∀ c ∈ l, 0x20 ≤ c.toNat := by
  induction h with
  | nil => intro c hc; simp at hc
  | plain d t hge _ _ _ ih =>
    intro c hc
    rcases List.mem_cons.1 hc with rfl | hc
    · exact hge
    · exact ih c hc
  | esc d t hd _ ih =>
    intro c hc
    rcases List.mem_cons.1 hc with rfl | hc
    · decide
    · rcases List.mem_cons.1 hc with rfl | hc
      · fin_cases hd <;> decide
      · exact ih c hc

/-- A string of backslashes has a full-length trailing run. -/
theorem trailBS_all_bs {l : List Char} (h : l.all (fun x => x == '\\') = true) :
    trailBS l = l.length := by
  have hfull : l.reverse.takeWhile (fun x => x == '\\') = l.reverse :=
    List.takeWhile_eq_self_iff.2 (fun x hx => List.all_eq_true.1 h x (List.mem_reverse.1 hx))
  rw [trailBS, hfull, List.length_reverse]

/-- Prepending to a list that is not all backslashes keeps the trailing
run. -/
theorem trailBS_cons_of_not_all {c : Char} {l : List Char}
    (h : l.all (fun x => x == '\\') = false) : trailBS (c :: l) = trailBS l := by
  rw [trailBS, trailBS, List.reverse_cons, List.takeWhile_append]
  have hne : (l.reverse.takeWhile (fun x => x == '\\')).length ≠ l.reverse.length := by
    intro heq
    have heqs := (List.takeWhile_prefix (fun x => x == '\\')).eq_of_length heq
    have hall := List.takeWhile_eq_self_iff.1 heqs
    have : l.all (fun x => x == '\\') = true :=
      List.all_eq_true.2 (fun x hx => hall x (List.mem_reverse.2 hx))
    rw [this] at h
    cases h
  rw [if_neg hne]

/-- Prepending to a list of backslashes: the run grows only when the new
head is itself a backslash. -/
theorem trailBS_cons_of_all {c : Char} {l : List Char}
    (h : l.all (fun x => x == '\\') = true) :
    trailBS (c :: l) = if c = '\\' then l.length + 1 else l.length := by
  have hfull : l.reverse.takeWhile (fun x => x == '\\') = l.reverse :=
    List.takeWhile_eq_self_iff.2 (fun x hx => List.all_eq_true.1 h x (List.mem_reverse.1 hx))
  rw [trailBS, List.reverse_cons, List.takeWhile_append, hfull, if_pos rfl]
  by_cases hc : c = '\\'
  · subst hc
    simp [List.takeWhile_cons]
  · simp [List.takeWhile_cons, hc]

/-- In a well-escaped string, every double quote is preceded by an odd
number of backslashes. -/
theorem escChain_quote_odd {l : List Char} (h : EscChain l) :
    ∀ a b : List Char, l = a ++ '"' :: b → trailBS a % 2 = 1 := by
  induction h with
  | nil =>
    intro a b heq
    exact absurd heq (by simp)
  | plain c t hge hbs hq _ ih =>
    intro a b heq
    cases a with
    | nil =>
      simp only [List.nil_append, List.cons.injEq] at heq
      exact absurd heq.1 hq
    | cons a0 a' =>
      simp only [List.cons_append, List.cons.injEq] at heq
      obtain ⟨rfl, heq⟩ := heq
      have hodd := ih a' b heq
      by_cases hall : a'.all (fun x => x == '\\') = true
      · rw [trailBS_cons_of_all hall, if_neg hbs]
        rw [trailBS_all_bs hall] at hodd
        exact hodd
      · rw [Bool.not_eq_true] at hall
        rw [trailBS_cons_of_not_all hall]
        exact hodd
  | esc c t hc _ ih =>
    intro a b heq
    cases a with
    | nil =>
      simp only [List.nil_append, List.cons.injEq] at heq
      exact absurd heq.1 (by decide)
    | cons a0 a'' =>
      cases a'' with
      | nil =>
        simp only [List.cons_append, List.nil_append, List.cons.injEq] at heq
        obtain ⟨rfl, rfl, rfl⟩ := heq
        decide
      | cons a1 a' =>
        simp only [List.cons_append, List.cons.injEq] at heq
        obtain ⟨rfl, rfl, heq⟩ := heq
        have hodd := ih a' b heq
        by_cases hcb : c = '\\'
        · subst hcb
          by_cases hall : a'.all (fun x => x == '\\') = true
          · rw [trailBS_all_bs hall] at hodd
            have hall2 : ('\\' :: a').all (fun x => x == '\\') = true := by
              simp [List.all_cons, hall]
            rw [trailBS_cons_of_all hall2, if_pos rfl]
            simp only [List.length_cons]
            omega
          · rw [Bool.not_eq_true] at hall
            have hall2 : ('\\' :: a').all (fun x => x == '\\') = false := by
              simp [List.all_cons, hall]
            rw [trailBS_cons_of_not_all hall2, trailBS_cons_of_not_all hall]
            exact hodd
        · have hall2 : (c :: a').all (fun x => x == '\\') = false := by
            simp [List.all_cons, hcb]
          rw [trailBS_cons_of_not_all hall2]
          by_cases hall : a'.all (fun x => x == '\\') = true
          · rw [trailBS_all_bs hall] at hodd
            rw [trailBS_cons_of_all hall, if_neg hcb]
            exact hodd
          · rw [Bool.not_eq_true] at hall
            rw [trailBS_cons_of_not_all hall]
            exact hodd

/-- Claim C1: `escape_applescript_string` applies exactly the seven listed
transformations in order — equivalently, it filters out NUL and the other
control characters below `0x20` (keeping tab, LF, CR) and then encodes
each remaining character independently; consequently the result contains
no NUL byte and no control character below `0x20`, every backslash occurs
only as the head of an escape sequence (`EscChain`), and every double
quote is preceded by an odd number of backslashes. -/
theorem escape_applescript_string_spec :
    ∀ s : List Char,
      escape_applescript_string s = (s.filter ctrlKeep).flatMap encodeChar
      ∧ (∀ c ∈ escape_applescript_string s, 0x20 ≤ c.toNat)
      ∧ EscChain (escape_applescript_string s)
      ∧ (∀ a b : List Char,
          escape_applescript_string s = a ++ '"' :: b → trailBS a % 2 = 1) := by
  intro s
  have heq := escape_applescript_string_eq_flatMap s
  have hchain : EscChain (escape_applescript_string s) := by
    rw [heq]
    exact escChain_flatMap_encodeChar _ (fun c hc => (List.mem_filter.1 hc).2)
  exact ⟨heq, escChain_printable hchain, hchain, escChain_quote_odd hchain⟩

/-- Witness for C1: the escape of `\"` is `\\\"`, whose quote is preceded
by three backslashes, and its characters are printable. -/
theorem escape_applescript_string_spec_witness :
    trailBS ['\\', '\\', '\\'] % 2 = 1 ∧ 0x20 ≤ '\\'.toNat :=
  ⟨(escape_applescript_string_spec ['\\', '"']).2.2.2 ['\\', '\\', '\\'] [] (by decide),
   (escape_applescript_string_spec ['\\']).2.1 '\\' (by decide)⟩

/-- Counterexample to claim C4 as stated: Python's `$` anchor also matches
just before a trailing newline, so the code accepts `a@b.co\n`, whose
final domain label is not 2+ alphabetic characters as the claim's
characterization requires. -/
theorem validate_email_newline_counterexample :
    validate_email "a@b.co\n".toList = true
    ∧ email_claim_literal "a@b.co\n".toList = false :=
  ⟨by decide, by decide⟩

/-- Truth characterization of the source's `validate_email` check chain. -/
theorem validate_email_true_iff (e : List Char) :
    validate_email e = true ↔
      (¬e.isEmpty = true ∧ e.length ≤ 254 ∧ e.count '@' = 1 ∧
        ¬(e.takeWhile (fun c => c ≠ '@')).isEmpty = true ∧
        (e.takeWhile (fun c => c ≠ '@')).length ≤ 64 ∧
        ¬((e.dropWhile (fun c => c ≠ '@')).tail).isEmpty = true ∧
        ((e.dropWhile (fun c => c ≠ '@')).tail).length ≤ 253 ∧
        hasDoubleDot e = false ∧
        ¬((e.takeWhile (fun c => c ≠ '@')).head? == some '.'
          || (e.takeWhile (fun c => c ≠ '@')).getLast? == some '.') = true ∧
        pyMatchDollar localCore (e.takeWhile (fun c => c ≠ '@')) = true ∧
        pyMatchDollar domainCore ((e.dropWhile (fun c => c ≠ '@')).tail) = true) := by
  rw [validate_email]
  by_cases h1 : (e.isEmpty || decide (254 < e.length)) = true
  · rw [if_pos h1]
    simp only [Bool.or_eq_true, decide_eq_true_eq] at h1
    constructor
    · intro h; cases h
    · intro h
      rcases h1 with h1 | h1
      · exact absurd h1 h.1
      · omega
  · rw [if_neg h1]
    simp only [Bool.or_eq_true, decide_eq_true_eq, not_or] at h1
    by_cases h2 : e.count '@' ≠ 1
    · rw [if_pos h2]
      constructor
      · intro h; cases h
      · intro h; exact absurd h.2.2.1 h2
    · rw [if_neg h2]
      rw [not_not] at h2
      by_cases h3 : ((e.takeWhile (fun c => c ≠ '@')).isEmpty
          || decide (64 < (e.takeWhile (fun c => c ≠ '@')).length)) = true
      · rw [if_pos h3]
        simp only [Bool.or_eq_true, decide_eq_true_eq] at h3
        constructor
        · intro h; cases h
        · intro h
          rcases h3 with h3 | h3
          · exact absurd h3 h.2.2.2.1
          · omega
      · rw [if_neg h3]
        simp only [Bool.or_eq_true, decide_eq_true_eq, not_or] at h3
        by_cases h4 : (((e.dropWhile (fun c => c ≠ '@')).tail).isEmpty
            || decide (253 < ((e.dropWhile (fun c => c ≠ '@')).tail).length)) = true
        · rw [if_pos h4]
          simp only [Bool.or_eq_true, decide_eq_true_eq] at h4
          constructor
          · intro h; cases h
          · intro h
            rcases h4 with h4 | h4
            · exact absurd h4 h.2.2.2.2.2.1
            · omega
        · rw [if_neg h4]
          simp only [Bool.or_eq_true, decide_eq_true_eq, not_or] at h4
          by_cases h5 : hasDoubleDot e = true
          · rw [if_pos h5]
            constructor
            · intro h; cases h
            · intro h
              rw [h.2.2.2.2.2.2.2.1] at h5
              cases h5
          · rw [if_neg h5]
            rw [Bool.not_eq_true] at h5
            by_cases h6 : ((e.takeWhile (fun c => c ≠ '@')).head? == some '.'
                || (e.takeWhile (fun c => c ≠ '@')).getLast? == some '.') = true
            · rw [if_pos h6]
              constructor
              · intro h; cases h
              · intro h; exact absurd h6 h.2.2.2.2.2.2.2.2.1
            · rw [if_neg h6]
              by_cases h7 : (!(pyMatchDollar localCore (e.takeWhile (fun c => c ≠ '@')))) = true
              · rw [if_pos h7]
                rw [Bool.not_eq_true'] at h7
                constructor
                · intro h; cases h
                · intro h
                  rw [h.2.2.2.2.2.2.2.2.2.1] at h7
                  cases h7
              · rw [if_neg h7]
                rw [Bool.not_eq_true, Bool.not_eq_false'] at h7
                by_cases h8 : (!(pyMatchDollar domainCore
                    ((e.dropWhile (fun c => c ≠ '@')).tail))) = true
                · rw [if_pos h8]
                  rw [Bool.not_eq_true'] at h8
                  constructor
                  · intro h; cases h
                  · intro h
                    rw [h.2.2.2.2.2.2.2.2.2.2] at h8
                    cases h8
                · rw [if_neg h8]
                  rw [Bool.not_eq_true, Bool.not_eq_false'] at h8
                  constructor
                  · intro _
                    refine ⟨h1.1, by omega, h2, h3.1, by omega, h4.1, by omega, h5, h6, h7, h8⟩
                  · intro _; rfl

/-- A list is non-empty exactly when its length is at least 1. -/
theorem notEmpty_iff_one_le (l : List Char) : ¬l.isEmpty = true ↔ 1 ≤ l.length := by
  cases l <;> simp

/-- Unfolding of the Python-`$` wrapper. -/
theorem pyMatchDollar_iff (core : List Char → Bool) (l : List Char) :
    pyMatchDollar core l = true ↔
      (core l = true ∨ (l.getLast? = some '\n' ∧ core l.dropLast = true)) := by
  simp [pyMatchDollar]

/-- Unfolding of the local-part core language. -/
theorem localCore_iff (l : List Char) :
    localCore l = true ↔ (l.isEmpty = false ∧ l.all isLocalChar = true) := by
  simp [localCore]

/-- Claim C4 amended: `validate_email` accepts exactly the addresses
described by `email_claim_amended` — the claim's conditions with full
domain label rules (non-empty labels of at most 63 letters, digits or
hyphens with alphanumeric ends), the `..` exclusion over the whole
address, and tolerance for one trailing newline in the local part or the
domain (Python's `$`). -/
theorem validate_email_eq_amended :
    ∀ e : List Char, validate_email e = email_claim_amended e := by
  intro e
  rw [Bool.eq_iff_iff, validate_email_true_iff]
  simp only [email_claim_amended, Bool.and_eq_true, decide_eq_true_eq, beq_iff_eq,
    Bool.or_eq_true, Bool.not_eq_true']
  constructor
  · rintro ⟨l1, l2, l3, l4, l5, l6, l7, l8, l9, l10, l11⟩
    rw [pyMatchDollar_iff] at l10 l11
    rw [notEmpty_iff_one_le] at l1 l4 l6
    rw [not_or] at l9
    refine ⟨⟨⟨⟨l1, l2⟩, l3⟩, l8⟩, ⟨⟨⟨⟨⟨⟨l4, l5⟩, ?_⟩, ?_⟩, ?_⟩, l6⟩, l7⟩, ?_⟩
    · exact beq_eq_false_iff_ne.2 l9.1
    · exact beq_eq_false_iff_ne.2 l9.2
    · rcases l10 with h | h
      · rw [localCore_iff] at h
        exact Or.inl h.2
      · rcases h with ⟨hnl, hcore⟩
        rw [localCore_iff] at hcore
        exact Or.inr ⟨⟨hnl, hcore.1⟩, hcore.2⟩
    · exact l11
  · rintro ⟨⟨⟨⟨r1, r2⟩, r3⟩, r4⟩, ⟨⟨⟨⟨⟨⟨r5, r6⟩, r7⟩, r8⟩, r9⟩, r10⟩, r11⟩, r12⟩
    refine ⟨(notEmpty_iff_one_le e).2 r1, r2, r3, (notEmpty_iff_one_le _).2 r5, r6,
      (notEmpty_iff_one_le _).2 r10, r11, r4, ?_, ?_, ?_⟩
    · rw [not_or]
      exact ⟨beq_eq_false_iff_ne.1 r7, beq_eq_false_iff_ne.1 r8⟩
    · rw [pyMatchDollar_iff]
      rcases r9 with h | h
      · refine Or.inl ((localCore_iff _).2 ⟨?_, h⟩)
        have hne := (notEmpty_iff_one_le _).2 r5
        rw [Bool.not_eq_true] at hne
        exact hne
      · exact Or.inr ⟨h.1.1, (localCore_iff _).2 ⟨h.1.2, h.2⟩⟩
    · rw [pyMatchDollar_iff]
      exact r12

/-- Witness for C4 at two concrete addresses: a normal valid address and
the newline-tolerated one both agree with the amended characterization. -/
theorem validate_email_eq_amended_witness :
    validate_email "user@example.com".toList = email_claim_amended "user@example.com".toList
    ∧ validate_email "a@b.co\n".toList = email_claim_amended "a@b.co\n".toList :=
  ⟨validate_email_eq_amended "user@example.com".toList,
   validate_email_eq_amended "a@b.co\n".toList⟩
